import Mathlib

/-!
Verification of the lexical scanner of the `lox-rs` repository
(`src/scanner.rs`).  The scanner walks a one-character-lookahead stream
over the source text and appends tokens to an output list.

Shallow-embedding conventions:

* The source buffer and the unread remainder of the character stream are
  `List Char`; `start`, `current` and `line` are `Nat` counters exactly as
  in the Rust `Scanner` struct.  Note that `current` counts *characters*
  (it is bumped once per `Chars`-iterator step), while Rust string
  indexing `&source[a..b]` works on *bytes*; the embedding models both
  faithfully (`byteSlice` below), which is where the two disagree on
  non-ASCII input.
* Fallible operations return `Except ScanError _`.  Rust panics are
  modelled as dedicated error values: `unexpectedCharacter` and
  `unterminatedString` are the two documented lexical errors, while the
  `...SlicePanic` constructors model the out-of-range / non-boundary
  panic of `&str` range indexing at the three slicing sites, and
  `parsePanic` models the `parse::<f64>().unwrap()` panic.
* `f64` parsing is modelled by `rustParseF64`, returning the exactly
  denoted rational for the plain decimal fragment `digits [ "." digits ]`
  (with at least one digit) that the scanner can produce on ASCII input,
  and `none` (the unwrap panic) on anything outside that fragment.  All
  numeric comparisons in the claims compare values obtained by parsing
  literal digit strings, so the rounding-free rational value is an
  adequate model of the parsed double.
* The driving `while let Some(c) = self.next()` loop is embedded with an
  explicit fuel argument so that the function is structurally recursive
  and kernel-reducible.  One character is consumed before each iteration,
  so `source.length` units of fuel always suffice; `scanLoop_fuel_irrel`
  below proves that the result does not depend on the fuel once the fuel
  is at least the length of the unread stream.
-/

namespace Lox

/-- Decidable equality for `Except` results, used to settle concrete runs
of the scanner by `decide`. -/
instance {ε α : Type} [DecidableEq ε] [DecidableEq α] : DecidableEq (Except ε α)
  | .error a, .error b =>
    if h : a = b then .isTrue (by rw [h]) else .isFalse (by simp [h])
  | .error _, .ok _ => .isFalse (by simp)
  | .ok _, .error _ => .isFalse (by simp)
  | .ok a, .ok b =>
    if h : a = b then .isTrue (by rw [h]) else .isFalse (by simp [h])

/-- Number of bytes of the UTF-8 encoding of a character
(Rust `char::len_utf8`). -/
def utf8Len (c : Char) : Nat :=
  if c.toNat < 0x80 then 1
  else if c.toNat < 0x800 then 2
  else if c.toNat < 0x10000 then 3
  else 4

/-- Drop the first `b` bytes of a character list, `none` when `b` is not a
character boundary or exceeds the text (the Rust byte-slicing panic). -/
def dropBytes : List Char → Nat → Option (List Char)
  | cs, 0 => some cs
  | [], _ + 1 => none
  | c :: cs, b + 1 =>
    if utf8Len c ≤ b + 1 then dropBytes cs (b + 1 - utf8Len c) else none

/-- Take the first `b` bytes of a character list, `none` when `b` is not a
character boundary or exceeds the text (the Rust byte-slicing panic). -/
def takeBytes : List Char → Nat → Option (List Char)
  | _, 0 => some []
  | [], _ + 1 => none
  | c :: cs, b + 1 =>
    if utf8Len c ≤ b + 1 then
      (takeBytes cs (b + 1 - utf8Len c)).map (c :: ·)
    else none

/-- Model of the Rust string slice `&s[a..b]`: byte-indexed, `none` models
the panic (range inverted, out of bounds, or not on a char boundary). -/
def byteSlice (cs : List Char) (a b : Nat) : Option (List Char) :=
  if a ≤ b then (dropBytes cs a).bind (fun rest => takeBytes rest (b - a)) else none

/-- Character class `'0'..='9'` (the source's `is_digit`). -/
def is_digit (c : Char) : Bool :=
  decide ('0'.toNat ≤ c.toNat ∧ c.toNat ≤ '9'.toNat)

/-- Character class `'a'..='z' | 'A'..='Z' | '_'` (the source's `is_alpha`). -/
def is_alpha (c : Char) : Bool :=
  decide (('a'.toNat ≤ c.toNat ∧ c.toNat ≤ 'z'.toNat) ∨
          ('A'.toNat ≤ c.toNat ∧ c.toNat ≤ 'Z'.toNat) ∨ c = '_')

/-- The source's `is_alpha_numeric`. -/
def is_alpha_numeric (c : Char) : Bool :=
  is_alpha c || is_digit c

/-- Modelled from the spec: the `TokenKind` enumeration of `src/token.rs`
is not part of the sources; per spec section 3 it is a closed set of
punctuation/operator kinds, the sixteen reserved words, and three
literal-carrying variants.  Reserved-word constructors carry a `k` prefix
because their spellings are Lean keywords. -/
inductive TokenKind where
  | leftParen | rightParen | leftBrace | rightBrace
  | comma | dot | minus | plus | semicolon | star | slash
  | bang | bangEqual | equal | equalEqual
  | less | lessEqual | greater | greaterEqual
  | kAnd | kClass | kElse | kFalse | kFor | kFun | kIf | kNil
  | kOr | kPrint | kReturn | kSuper | kThis | kTrue | kVar | kWhile
  | string (value : List Char)
  | number (value : ℚ)
  | identifier (name : List Char)
  deriving DecidableEq, Repr

/-- Modelled from the spec: a token is an immutable record of kind and the
line on which its lexeme began (spec section 3). -/
structure Token where
  kind : TokenKind
  line : Nat
  deriving DecidableEq, Repr

/-- The failure modes of the scan.  The first two are the panics the
scanner raises deliberately; the remaining constructors model the
standard-library panics at the three `&str` slicing sites and at the
`parse::<f64>().unwrap()` call. -/
inductive ScanError where
  | unexpectedCharacter (line : Nat)
  | unterminatedString (line : Nat)
  | stringSlicePanic
  | numberSlicePanic
  | identifierSlicePanic
  | parsePanic
  deriving DecidableEq, Repr

/-- Numeric value of a digit character. -/
def digitVal (c : Char) : Nat := c.toNat - '0'.toNat

/-- Value of a digit run, most significant digit first. -/
def digitsToNat (cs : List Char) : Nat :=
  cs.foldl (fun a c => 10 * a + digitVal c) 0

/-- Model of `str::parse::<f64>` restricted to the decimal fragment
`digits [ "." digits ]` with at least one digit in total, the only shapes
the claims exercise; the parsed value is the exactly denoted rational and
every other input is mapped to `none` (the unwrap panic). -/
def rustParseF64 (cs : List Char) : Option ℚ :=
  let intPart := cs.takeWhile is_digit
  let rest := cs.dropWhile is_digit
  match rest with
  | [] => if intPart.isEmpty then none else some (digitsToNat intPart : ℚ)
  | '.' :: frac =>
    if frac.all is_digit ∧ (intPart ≠ [] ∨ frac ≠ []) then
      some ((digitsToNat intPart : ℚ) + (digitsToNat frac : ℚ) / (10 : ℚ) ^ frac.length)
    else none
  | _ => none

/-- The scanner state: the immutable source, the accumulated tokens, the
unread remainder of the character stream, and the `start`/`current`/`line`
counters of the Rust struct. -/
structure Scanner where
  source : List Char
  tokens : List Token
  stream : List Char
  start : Nat
  current : Nat
  line : Nat
  deriving DecidableEq, Repr

/-- The source's `Scanner::new`. -/
def initScanner (source : List Char) : Scanner :=
  { source := source, tokens := [], stream := source,
    start := 0, current := 0, line := 1 }

/-- The source's `Scanner::add_token`: append a token tagged with the
current line. -/
def addToken (s : Scanner) (k : TokenKind) : Scanner :=
  { s with tokens := s.tokens ++ [{ kind := k, line := s.line }] }

/-- The `while` loop of `Scanner::scan_string`: consume characters up to
(but not including) the next `'"'` or to end of input, incrementing the
line counter on newlines.  Returns remaining stream, `current`, `line`. -/
def scanStringLoop : List Char → Nat → Nat → List Char × Nat × Nat
  | [], current, line => ([], current, line)
  | c :: rest, current, line =>
    if c = '"' then (c :: rest, current, line)
    else if c = '\n' then scanStringLoop rest (current + 1) (line + 1)
    else scanStringLoop rest (current + 1) line

/-- The digit-consuming loops of `Scanner::scan_number`: consume the
maximal run of decimal digits.  Returns remaining stream and `current`. -/
def scanDigitsLoop : List Char → Nat → List Char × Nat
  | [], current => ([], current)
  | c :: rest, current =>
    if is_digit c then scanDigitsLoop rest (current + 1) else (c :: rest, current)

/-- The loop of `Scanner::scan_identifier`: consume the maximal run of
alphanumeric-or-underscore characters. -/
def scanIdentLoop : List Char → Nat → List Char × Nat
  | [], current => ([], current)
  | c :: rest, current =>
    if is_alpha_numeric c then scanIdentLoop rest (current + 1) else (c :: rest, current)

/-- The line-comment loop in `Scanner::scan_tokens` (`//` arm): consume up
to, but not including, the next newline or end of input. -/
def lineCommentLoop : List Char → Nat → List Char × Nat
  | [], current => ([], current)
  | c :: rest, current =>
    if c = '\n' then (c :: rest, current) else lineCommentLoop rest (current + 1)

/-- The loop of `Scanner::scan_multiline_comment` with its `nesting`
counter.  `/*` raises the depth, `*/` lowers it and terminates at depth 0.
At end of input the final failed `self.next()` still bumps `current`.
Note the Rust loop does not touch `line`, so neither does this model. -/
def scanMLC : List Char → Nat → Nat → List Char × Nat
  | [], current, _ => ([], current + 1)
  | '/' :: '*' :: rest, current, d => scanMLC rest (current + 2) (d + 1)
  | '*' :: '/' :: rest, current, d =>
    if d = 0 then (rest, current + 2) else scanMLC rest (current + 2) (d - 1)
  | _ :: rest, current, d => scanMLC rest (current + 1) d

/-- The source's `Scanner::scan_string` (the opening quote has already
been consumed; `start` points at it). -/
def scan_string (s : Scanner) : Except ScanError Scanner :=
  let r := scanStringLoop s.stream s.current s.line
  let s1 : Scanner := { s with stream := r.1, current := r.2.1, line := r.2.2 }
  if s1.stream.isEmpty then
    .error (.unterminatedString s1.line)
  else
    match byteSlice s1.source (s1.start + 1) s1.current with
    | none => .error .stringSlicePanic
    | some value =>
      let s2 := addToken s1 (.string value)
      .ok { s2 with current := s2.current + 1, stream := s2.stream.tail }

/-- The dot-lookahead block of `Scanner::scan_number`: consume the `.`
only if the character after it is a digit (the cloned-stream lookahead),
then consume the fractional digit run. -/
def scanNumberDot (s1 : Scanner) : Scanner :=
  match s1.stream with
  | '.' :: rest =>
    match rest with
    | d :: _ =>
      if is_digit d then
        let r2 := scanDigitsLoop rest (s1.current + 1)
        { s1 with stream := r2.1, current := r2.2 }
      else s1
    | [] => s1
  | _ => s1

/-- The source's `Scanner::scan_number`: maximal digit run, then the
dot lookahead (`scanNumberDot` above), then slice and parse the lexeme. -/
def scan_number (s : Scanner) : Except ScanError Scanner :=
  let r := scanDigitsLoop s.stream s.current
  let s1 : Scanner := { s with stream := r.1, current := r.2 }
  let s2 : Scanner := scanNumberDot s1
  match byteSlice s2.source s2.start s2.current with
  | none => .error .numberSlicePanic
  | some lexeme =>
    match rustParseF64 lexeme with
    | none => .error .parsePanic
    | some v => .ok (addToken s2 (.number v))

/-- The reserved-word table of `Scanner::scan_identifier`. -/
def keywordLookup (value : List Char) : TokenKind :=
  if value = "and".toList then .kAnd
  else if value = "class".toList then .kClass
  else if value = "else".toList then .kElse
  else if value = "false".toList then .kFalse
  else if value = "for".toList then .kFor
  else if value = "fun".toList then .kFun
  else if value = "if".toList then .kIf
  else if value = "nil".toList then .kNil
  else if value = "or".toList then .kOr
  else if value = "print".toList then .kPrint
  else if value = "return".toList then .kReturn
  else if value = "super".toList then .kSuper
  else if value = "this".toList then .kThis
  else if value = "true".toList then .kTrue
  else if value = "var".toList then .kVar
  else if value = "while".toList then .kWhile
  else .identifier value

/-- The source's `Scanner::scan_identifier`. -/
def scan_identifier (s : Scanner) : Except ScanError Scanner :=
  let r := scanIdentLoop s.stream s.current
  let s1 : Scanner := { s with stream := r.1, current := r.2 }
  match byteSlice s1.source s1.start s1.current with
  | none => .error .identifierSlicePanic
  | some value => .ok (addToken s1 (keywordLookup value))

/-- The source's `Scanner::scan_multiline_comment` lifted to the scanner
state; `nesting` starts at 0.  The token list and line counter are left
untouched, exactly as in the source. -/
def scan_multiline_comment (s : Scanner) : Scanner :=
  let r := scanMLC s.stream s.current 0
  { s with stream := r.1, current := r.2 }

/-- One iteration body of the `match c` dispatch in
`Scanner::scan_tokens`; `c` has already been consumed and `start` set. -/
def scanOne (s : Scanner) (c : Char) : Except ScanError Scanner :=
  if c = '(' then .ok (addToken s .leftParen)
  else if c = ')' then .ok (addToken s .rightParen)
  else if c = '\x7b' then .ok (addToken s .leftBrace)
  else if c = '\x7d' then .ok (addToken s .rightBrace)
  else if c = ',' then .ok (addToken s .comma)
  else if c = '.' then .ok (addToken s .dot)
  else if c = '-' then .ok (addToken s .minus)
  else if c = '+' then .ok (addToken s .plus)
  else if c = ';' then .ok (addToken s .semicolon)
  else if c = '*' then .ok (addToken s .star)
  else if c = '!' then
    match s.stream with
    | '=' :: rest =>
      .ok (addToken { s with current := s.current + 1, stream := rest } .bangEqual)
    | _ => .ok (addToken s .bang)
  else if c = '=' then
    match s.stream with
    | '=' :: rest =>
      .ok (addToken { s with current := s.current + 1, stream := rest } .equalEqual)
    | _ => .ok (addToken s .equal)
  else if c = '<' then
    match s.stream with
    | '=' :: rest =>
      .ok (addToken { s with current := s.current + 1, stream := rest } .lessEqual)
    | _ => .ok (addToken s .less)
  else if c = '>' then
    match s.stream with
    | '=' :: rest =>
      .ok (addToken { s with current := s.current + 1, stream := rest } .greaterEqual)
    | _ => .ok (addToken s .greater)
  else if c = '/' then
    match s.stream with
    | '/' :: rest =>
      let r := lineCommentLoop rest (s.current + 1)
      .ok { s with stream := r.1, current := r.2 }
    | '*' :: rest =>
      .ok (scan_multiline_comment { s with current := s.current + 1, stream := rest })
    | _ => .ok (addToken s .slash)
  else if c = '"' then scan_string s
  else if is_digit c then scan_number s
  else if is_alpha c then scan_identifier s
  else if c = ' ' ∨ c = '\r' ∨ c = '\t' then .ok s
  else if c = '\n' then .ok { s with line := s.line + 1 }
  else .error (.unexpectedCharacter s.line)

/-- The driving loop of `Scanner::scan_tokens`.  Each iteration consumes
one character via `next()` (which sets `start := current - 1`, i.e. the
old `current`) and dispatches.  The fuel argument only makes the
recursion structural; one character is consumed per iteration, so any
fuel at least the unread-stream length gives the loop's true result
(`scanLoop_fuel_irrel`). -/
def scanLoop (fuel : Nat) (s : Scanner) : Except ScanError (List Token) :=
  match s.stream with
    | [] => .ok s.tokens
    | c :: rest =>
      match fuel with
      | 0 => .ok s.tokens
      | fuel' + 1 =>
        match scanOne { s with current := s.current + 1, stream := rest, start := s.current } c with
        | .error e => .error e
        | .ok s2 => scanLoop fuel' s2

/-- The source's `Scanner::scan_tokens` run on a whole source buffer. -/
def scanSource (source : List Char) : Except ScanError (List Token) :=
  scanLoop source.length (initScanner source)

/-- Character-level grammar of the interior of a well-nested block
comment: a sequence of plain characters and nested `/* ... */` pairs.  A
plain character must not begin a `/*` or `*/` pair with the character
that follows it; `headD '*'` is used because every `Body` is followed by
the `*` of its closing `*/`. -/
inductive Body : List Char → Prop where
  | nil : Body []
  | plain (c : Char) (cs : List Char)
      (h1 : ¬(c = '/' ∧ cs.headD '*' = '*'))
      (h2 : ¬(c = '*' ∧ cs.headD '*' = '/'))
      (h : Body cs) : Body (c :: cs)
  | nest (inner cs : List Char) (hinner : Body inner) (hcs : Body cs) :
      Body ('/' :: '*' :: (inner ++ '*' :: '/' :: cs))

/-- The sixteen reserved-word spellings of the keyword table. -/
def kwSpellings : List (List Char) :=
  ["and".toList, "class".toList, "else".toList, "false".toList, "for".toList,
   "fun".toList, "if".toList, "nil".toList, "or".toList, "print".toList,
   "return".toList, "super".toList, "this".toList, "true".toList, "var".toList,
   "while".toList]

/-- One outer iteration of `scan_tokens` as a relation on scanner states:
read one character, set `start`, dispatch, and succeed.  Used to express
state invariants that hold at every iteration boundary of the scan. -/
inductive ScanStep : Scanner → Scanner → Prop where
  | mk (s s2 : Scanner) (c : Char) (rest : List Char)
      (hs : s.stream = c :: rest)
      (hone : scanOne { s with current := s.current + 1, stream := rest, start := s.current } c = .ok s2) :
      ScanStep s s2

/-- Relation between the state handed to a dispatch helper and the state
it returns: source and lexeme start untouched, the line counter does not
decrease, and the helper only consumes from the stream — the returned
stream is the input stream with `current' - current` characters dropped.
`current` can end one past `current + length stream` when a loop detects
end of input through a failed `next()` (which still increments it). -/
def StepOk (s s' : Scanner) : Prop :=
  s'.source = s.source ∧ s'.start = s.start ∧ s.line ≤ s'.line ∧
  s.current ≤ s'.current ∧ s'.current ≤ s.current + s.stream.length + 1 ∧
  s'.stream = s.stream.drop (s'.current - s.current)

/-- The state invariant maintained at every iteration boundary of the
scan of `src`: the source is fixed, the lexeme start never passes the
read cursor, the read cursor passes the end of input by at most one, and
the unread stream is exactly the source from the read cursor on. -/
def ReachInv (src : List Char) (s : Scanner) : Prop :=
  s.source = src ∧ s.start ≤ s.current ∧ s.current ≤ src.length + 1 ∧
  s.stream = src.drop s.current

/-!  ### Basic unfolding lemmas  -/

/-- Unfold one step of the driving loop when the stream is exhausted. -/
lemma scanLoop_nil (fuel : Nat) (s : Scanner) (hs : s.stream = []) :
    scanLoop fuel s = .ok s.tokens := by
  rw [scanLoop.eq_def, hs]

/-- Unfold one step of the driving loop on a nonempty stream. -/
lemma scanLoop_cons (fuel : Nat) (s : Scanner) (c : Char) (rest : List Char)
    (hs : s.stream = c :: rest) :
    scanLoop (fuel + 1) s =
      match scanOne { s with current := s.current + 1, stream := rest, start := s.current } c with
      | .error e => .error e
      | .ok s2 => scanLoop fuel s2 := by
  rw [scanLoop.eq_def, hs]

/-- Inside a block comment, a character that does not begin `/*` or `*/`
together with the following character is consumed without any effect on
the nesting depth. -/
lemma scanMLC_step (c : Char) (t : List Char) (cur d : Nat)
    (h1 : ¬(c = '/' ∧ t.head? = some '*'))
    (h2 : ¬(c = '*' ∧ t.head? = some '/')) :
    scanMLC (c :: t) cur d = scanMLC t (cur + 1) d := by
  rw [scanMLC.eq_def]
  split
  all_goals rename_i heq
  any_goals exact List.noConfusion heq
  all_goals injection heq with hc ht
  all_goals subst hc
  all_goals subst ht
  all_goals try rfl
  all_goals first
    | (exfalso; apply h1; constructor <;> rfl)
    | (exfalso; apply h2; constructor <;> rfl)

/-!  ### Well-nested block comments (C5)  -/

/-- Running the block-comment loop on a well-nested interior followed by
`*/` consumes exactly the interior and the closer: at depth 0 it stops
there; at positive depth it continues after the closer one level up. -/
lemma scanMLC_closes {inner : List Char} (hb : Body inner) :
    ∀ (cur d : Nat) (rest : List Char),
      scanMLC (inner ++ '*' :: '/' :: rest) cur d =
        if d = 0 then (rest, cur + (inner.length + 2))
        else scanMLC rest (cur + (inner.length + 2)) (d - 1) := by
  induction hb with
  | nil =>
    intro cur d rest
    simp [scanMLC]
  | plain c cs h1 h2 hcs ih =>
    intro cur d rest
    have hh1 : ¬(c = '/' ∧ (cs ++ '*' :: '/' :: rest).head? = some '*') := by
      cases cs with
      | nil => exact fun hx => h1 ⟨hx.1, rfl⟩
      | cons a cs' =>
        rintro ⟨hc, hh⟩
        simp only [List.cons_append, List.head?_cons, Option.some.injEq] at hh
        exact h1 ⟨hc, by simpa using hh⟩
    have hh2 : ¬(c = '*' ∧ (cs ++ '*' :: '/' :: rest).head? = some '/') := by
      cases cs with
      | nil => rintro ⟨_, hh⟩; simp at hh
      | cons a cs' =>
        rintro ⟨hc, hh⟩
        simp only [List.cons_append, List.head?_cons, Option.some.injEq] at hh
        exact h2 ⟨hc, by simpa using hh⟩
    rw [List.cons_append, scanMLC_step c _ cur d hh1 hh2, ih (cur + 1) d rest,
      show cur + 1 + (cs.length + 2) = cur + ((c :: cs).length + 2) by
        simp [List.length_cons]; omega]
  | nest inner cs hinner hcs ih1 ih2 =>
    intro cur d rest
    have hre : ('/' :: '*' :: (inner ++ '*' :: '/' :: cs)) ++ '*' :: '/' :: rest =
        '/' :: '*' :: (inner ++ '*' :: '/' :: (cs ++ '*' :: '/' :: rest)) := by
      simp [List.append_assoc]
    rw [hre]
    have hstep : scanMLC ('/' :: '*' :: (inner ++ '*' :: '/' :: (cs ++ '*' :: '/' :: rest))) cur d =
        scanMLC (inner ++ '*' :: '/' :: (cs ++ '*' :: '/' :: rest)) (cur + 2) (d + 1) := rfl
    rw [hstep, ih1 (cur + 2) (d + 1) (cs ++ '*' :: '/' :: rest)]
    simp only [if_neg (Nat.succ_ne_zero d), Nat.add_sub_cancel]
    rw [ih2 (cur + 2 + (inner.length + 2)) d rest,
      show cur + 2 + (inner.length + 2) + (cs.length + 2) =
          cur + (('/' :: '*' :: (inner ++ '*' :: '/' :: cs)).length + 2) by
        simp [List.length_cons, List.length_append]; omega]

/-!  ### Claim theorems: concrete scans  -/

/-- C1.  Maximal munch for the two-character operators: the input `!=`
scans to exactly one `BangEqual` token (not `Bang` then `Equal`), and
likewise `==`, `<=`, `>=`; conversely each of `!`, `=`, `<`, `>` alone
scans to exactly one token of the one-character variant. -/
theorem c1_maximal_munch_two_char_operators :
    scanSource ['!', '='] = .ok [⟨.bangEqual, 1⟩] ∧
    scanSource ['=', '='] = .ok [⟨.equalEqual, 1⟩] ∧
    scanSource ['<', '='] = .ok [⟨.lessEqual, 1⟩] ∧
    scanSource ['>', '='] = .ok [⟨.greaterEqual, 1⟩] ∧
    scanSource ['!'] = .ok [⟨.bang, 1⟩] ∧
    scanSource ['='] = .ok [⟨.equal, 1⟩] ∧
    scanSource ['<'] = .ok [⟨.less, 1⟩] ∧
    scanSource ['>'] = .ok [⟨.greater, 1⟩] := by
  refine ⟨?_, ?_, ?_, ?_, ?_, ?_, ?_, ?_⟩ <;> decide

/-- C2.  Number-literal two-character lookahead: `123` scans to
`Number(123.0)`, `123.45` to `Number(123.45)`, and `123.` to
`Number(123.0)` followed by a separate `Dot` token, because the dot is
consumed into the number only when the character after it is a digit. -/
theorem c2_number_dot_lookahead :
    scanSource ['1', '2', '3'] = .ok [⟨.number (123 : ℚ), 1⟩] ∧
    scanSource ['1', '2', '3', '.', '4', '5'] = .ok [⟨.number (123.45 : ℚ), 1⟩] ∧
    scanSource ['1', '2', '3', '.'] = .ok [⟨.number (123 : ℚ), 1⟩, ⟨.dot, 1⟩] := by
  refine ⟨by rfl, ?_, by rfl⟩
  have h : (123.45 : ℚ) =
      (digitsToNat ['1', '2', '3'] : ℚ) + (digitsToNat ['4', '5'] : ℚ) / (10 : ℚ) ^ (2 : ℕ) := by
    norm_num [show digitsToNat ['1', '2', '3'] = 123 from rfl,
      show digitsToNat ['4', '5'] = 45 from rfl]
  rw [h]; rfl

/-- C3 (code bug witness).  The spec promises that a successfully scanned
string literal carries exactly the substring between the quotes for every
source, including non-ASCII ones.  The code instead indexes the source by
*byte* offsets computed by counting *characters*: on the three-character
source `"é"` the slice `source[1..2]` falls inside the two-byte encoding
of `é` and the program panics (modelled by `stringSlicePanic`) instead of
emitting `String("é")`. -/
theorem c3_non_ascii_string_slice_panics :
    scanSource ['"', 'é', '"'] = .error .stringSlicePanic := by decide

/-- C4 (code bug witness).  The spec says newlines inside a block comment
increment the line counter, so a token after a block comment containing
one newline should be tagged with line 2.  The `scan_multiline_comment`
loop never touches `line` (its match has no newline arm), so scanning
`/*\n*/a` tags the identifier `a` with line 1, not 2. -/
theorem c4_block_comment_newline_line_not_incremented :
    scanSource ['/', '*', '\n', '*', '/', 'a'] = .ok [⟨.identifier ['a'], 1⟩] := by decide

/-- C5.  Block comments nest: scanning a source that consists of a single
well-nested block comment (`/*`, a `Body` interior possibly containing
nested `/* ... */` pairs, then the matching `*/`) produces zero tokens;
in particular `/* /* */ */` scans to the empty token sequence.  The
`Body`/`scanMLC_closes` machinery shows a `*/` inside the interior is
consumed at positive depth and only the final `*/` at depth zero
terminates the comment. -/
theorem c5_nested_block_comments :
    (∀ body : List Char, Body body →
      scanSource ('/' :: '*' :: (body ++ ['*', '/'])) = .ok []) ∧
    scanSource ['/', '*', ' ', '/', '*', ' ', '*', '/', ' ', '*', '/'] = .ok [] := by
  constructor
  · intro body hb
    have h1 : scanSource ('/' :: '*' :: (body ++ ['*', '/'])) =
        scanLoop ((body ++ ['*', '/']).length + 1)
          { source := '/' :: '*' :: (body ++ ['*', '/']), tokens := [],
            stream := (scanMLC (body ++ '*' :: '/' :: []) 2 0).1, start := 0,
            current := (scanMLC (body ++ '*' :: '/' :: []) 2 0).2, line := 1 } := rfl
    rw [h1, scanMLC_closes hb 2 0 []]
    simp only [if_pos]
    exact scanLoop_nil _ _ rfl
  · decide

/-- C5 witness: the general half applied to the concrete interior `ab`. -/
theorem c5_nested_block_comments_witness :
    scanSource ['/', '*', 'a', 'b', '*', '/'] = .ok [] :=
  c5_nested_block_comments.1 ['a', 'b']
    (Body.plain 'a' ['b'] (by decide) (by decide)
      (Body.plain 'b' [] (by decide) (by decide) Body.nil))

/-- C8.  Unterminated block comments are accepted silently: the comment
scanner never raises an error and never appends a token, and whenever it
consumes the rest of the input (as happens when the comment is still open
at end of input) the whole scan returns exactly the tokens accumulated
before the comment began.  The concrete conjunct shows `a /* b` scanning
to just `Identifier("a")`. -/
theorem c8_unterminated_block_comment_silent :
    (∀ s : Scanner,
      (scan_multiline_comment s).tokens = s.tokens ∧
      ((scan_multiline_comment s).stream = [] →
        ∀ fuel, scanLoop fuel (scan_multiline_comment s) = .ok s.tokens)) ∧
    scanSource ['a', ' ', '/', '*', ' ', 'b'] = .ok [⟨.identifier ['a'], 1⟩] := by
  constructor
  · intro s
    refine ⟨rfl, fun h fuel => ?_⟩
    rw [scanLoop_nil fuel _ h]
    rfl
  · decide

/-- C8 witness: the general half applied to a concrete state whose
unterminated comment consumes the rest of the input. -/
theorem c8_unterminated_block_comment_witness :
    scanLoop 0 (scan_multiline_comment
      { source := ['/', '*'], tokens := [⟨.dot, 1⟩], stream := [],
        start := 0, current := 2, line := 1 }) = .ok [⟨.dot, 1⟩] :=
  (c8_unterminated_block_comment_silent.1 _).2 (by decide) 0

/-- C7 (code bug witness).  The spec's error taxonomy says the scan can
fail only with `UnexpectedCharacter` or `UnterminatedString`.  Because
char-count offsets are used as byte offsets, the source `/*é*/1` slices
the number lexeme as the text `/`, whose `parse::<f64>().unwrap()`
panics: a third failure mode (modelled by `parsePanic`). -/
theorem c7_unexpected_failure_mode_parse_panic :
    scanSource ['/', '*', 'é', '*', '/', '1'] = .error .parsePanic := by decide

/-!  ### Character classes, ASCII slicing, identifiers (C6)  -/

/-- A character satisfying a Boolean class is distinct from any character
falsifying it. -/
lemma ne_of_true_of_false {f : Char → Bool} {c : Char} (h : f c = true) (x : Char)
    (hx : f x = false) : c ≠ x := by
  intro e
  subst e
  rw [h] at hx
  exact Bool.noConfusion hx

/-- The `is_alpha` and `is_digit` classes are disjoint. -/
lemma is_alpha_not_digit {c : Char} (h : is_alpha c = true) : is_digit c = false := by
  rw [is_alpha, decide_eq_true_iff] at h
  rw [is_digit, decide_eq_false_iff_not]
  rintro ⟨g1, g2⟩
  have e9 : '9'.toNat = 57 := rfl
  rcases h with ⟨h1, h2⟩ | ⟨h1, h2⟩ | rfl
  · have ea : 'a'.toNat = 97 := rfl
    omega
  · have eA : 'A'.toNat = 65 := rfl
    omega
  · exact absurd g2 (by decide)

/-- Identifier characters are ASCII. -/
lemma is_alpha_numeric_lt_128 {c : Char} (h : is_alpha_numeric c = true) :
    c.toNat < 128 := by
  rw [is_alpha_numeric, Bool.or_eq_true] at h
  rcases h with h | h
  · rw [is_alpha, decide_eq_true_iff] at h
    rcases h with ⟨h1, h2⟩ | ⟨h1, h2⟩ | rfl
    · have : 'z'.toNat = 122 := rfl
      omega
    · have : 'Z'.toNat = 90 := rfl
      omega
    · decide
  · rw [is_digit, decide_eq_true_iff] at h
    have : '9'.toNat = 57 := rfl
    omega

/-- Alphabetic characters are alphanumeric. -/
lemma is_alpha_alnum {c : Char} (h : is_alpha c = true) : is_alpha_numeric c = true := by
  rw [is_alpha_numeric, h, Bool.true_or]

/-- ASCII characters occupy one UTF-8 byte. -/
lemma utf8Len_one {c : Char} (h : c.toNat < 128) : utf8Len c = 1 := by
  rw [utf8Len, if_pos h]

/-- On all-ASCII text, byte-dropping is character-dropping. -/
lemma dropBytes_ascii : ∀ (cs : List Char) (a : Nat), (∀ c ∈ cs, utf8Len c = 1) →
    dropBytes cs a = if a ≤ cs.length then some (cs.drop a) else none := by
  intro cs
  induction cs with
  | nil =>
    intro a _
    cases a with
    | zero => simp [dropBytes]
    | succ n => simp [dropBytes]
  | cons c cs ih =>
    intro a hall
    cases a with
    | zero => simp [dropBytes]
    | succ n =>
      have hc : utf8Len c = 1 := hall c (by simp)
      have hcs : ∀ x ∈ cs, utf8Len x = 1 := fun x hx => hall x (by simp [hx])
      simp only [dropBytes, hc]
      rw [if_pos (by omega : (1 : Nat) ≤ n + 1)]
      simp only [Nat.add_sub_cancel]
      rw [ih n hcs]
      by_cases hn : n ≤ cs.length
      · rw [if_pos hn, if_pos (by rw [List.length_cons]; omega), List.drop_succ_cons]
      · rw [if_neg hn, if_neg (by rw [List.length_cons]; omega)]

/-- On all-ASCII text, byte-taking is character-taking. -/
lemma takeBytes_ascii : ∀ (cs : List Char) (b : Nat), (∀ c ∈ cs, utf8Len c = 1) →
    takeBytes cs b = if b ≤ cs.length then some (cs.take b) else none := by
  intro cs
  induction cs with
  | nil =>
    intro b _
    cases b with
    | zero => simp [takeBytes]
    | succ n => simp [takeBytes]
  | cons c cs ih =>
    intro b hall
    cases b with
    | zero => simp [takeBytes]
    | succ n =>
      have hc : utf8Len c = 1 := hall c (by simp)
      have hcs : ∀ x ∈ cs, utf8Len x = 1 := fun x hx => hall x (by simp [hx])
      simp only [takeBytes, hc]
      rw [if_pos (by omega : (1 : Nat) ≤ n + 1)]
      simp only [Nat.add_sub_cancel]
      rw [ih n hcs]
      by_cases hn : n ≤ cs.length
      · rw [if_pos hn, if_pos (by rw [List.length_cons]; omega)]
        simp [List.take_succ_cons]
      · rw [if_neg hn, if_neg (by rw [List.length_cons]; omega)]
        simp

/-- On all-ASCII text, the Rust byte slice `&s[a..b]` succeeds exactly for
in-range indices and returns the characters from `a` to `b`. -/
lemma byteSlice_ascii (cs : List Char) (a b : Nat) (h : ∀ c ∈ cs, utf8Len c = 1) :
    byteSlice cs a b =
      if a ≤ b ∧ b ≤ cs.length then some ((cs.drop a).take (b - a)) else none := by
  rw [byteSlice]
  by_cases hab : a ≤ b
  · rw [if_pos hab, dropBytes_ascii cs a h]
    by_cases ha : a ≤ cs.length
    · rw [if_pos ha, Option.some_bind,
        takeBytes_ascii _ _ (fun x hx => h x (List.drop_subset a cs hx)), List.length_drop]
      by_cases hb : b ≤ cs.length
      · rw [if_pos (by omega), if_pos ⟨hab, hb⟩]
      · rw [if_neg (by omega), if_neg (fun hx => hb hx.2)]
    · rw [if_neg ha, Option.none_bind, if_neg (by omega)]
  · rw [if_neg hab, if_neg (fun hx => hab hx.1)]

/-- The identifier loop consumes an all-alphanumeric stream entirely. -/
lemma scanIdentLoop_all : ∀ (t : List Char) (cur : Nat), t.all is_alpha_numeric = true →
    scanIdentLoop t cur = ([], cur + t.length) := by
  intro t
  induction t with
  | nil =>
    intro cur _
    simp [scanIdentLoop]
  | cons c cs ih =>
    intro cur hall
    rw [List.all_cons, Bool.and_eq_true] at hall
    simp only [scanIdentLoop]
    rw [if_pos hall.1, ih (cur + 1) hall.2,
      show cur + 1 + cs.length = cur + (c :: cs).length by rw [List.length_cons]; omega]

/-- The dispatch sends every alphabetic character to `scan_identifier`. -/
lemma scanOne_alpha (s : Scanner) (c : Char) (h : is_alpha c = true) :
    scanOne s c = scan_identifier s := by
  have n01 : c ≠ '(' := ne_of_true_of_false h '(' (by decide)
  have n02 : c ≠ ')' := ne_of_true_of_false h ')' (by decide)
  have n03 : c ≠ '\x7b' := ne_of_true_of_false h '\x7b' (by decide)
  have n04 : c ≠ '\x7d' := ne_of_true_of_false h '\x7d' (by decide)
  have n05 : c ≠ ',' := ne_of_true_of_false h ',' (by decide)
  have n06 : c ≠ '.' := ne_of_true_of_false h '.' (by decide)
  have n07 : c ≠ '-' := ne_of_true_of_false h '-' (by decide)
  have n08 : c ≠ '+' := ne_of_true_of_false h '+' (by decide)
  have n09 : c ≠ ';' := ne_of_true_of_false h ';' (by decide)
  have n10 : c ≠ '*' := ne_of_true_of_false h '*' (by decide)
  have n11 : c ≠ '!' := ne_of_true_of_false h '!' (by decide)
  have n12 : c ≠ '=' := ne_of_true_of_false h '=' (by decide)
  have n13 : c ≠ '<' := ne_of_true_of_false h '<' (by decide)
  have n14 : c ≠ '>' := ne_of_true_of_false h '>' (by decide)
  have n15 : c ≠ '/' := ne_of_true_of_false h '/' (by decide)
  have n16 : c ≠ '"' := ne_of_true_of_false h '"' (by decide)
  have nd : ¬(is_digit c = true) := by
    rw [is_alpha_not_digit h]
    simp
  simp only [scanOne, if_neg n01, if_neg n02, if_neg n03, if_neg n04, if_neg n05,
    if_neg n06, if_neg n07, if_neg n08, if_neg n09, if_neg n10, if_neg n11,
    if_neg n12, if_neg n13, if_neg n14, if_neg n15, if_neg n16, if_neg nd, if_pos h]

/-- Lexemes that are not reserved words resolve to `Identifier`. -/
lemma keywordLookup_not_mem (value : List Char) (h : value ∉ kwSpellings) :
    keywordLookup value = .identifier value := by
  simp only [kwSpellings, List.mem_cons, List.not_mem_nil, or_false, not_or] at h
  obtain ⟨h1, h2, h3, h4, h5, h6, h7, h8, h9, h10, h11, h12, h13, h14, h15, h16⟩ := h
  simp only [keywordLookup, if_neg h1, if_neg h2, if_neg h3, if_neg h4, if_neg h5,
    if_neg h6, if_neg h7, if_neg h8, if_neg h9, if_neg h10, if_neg h11, if_neg h12,
    if_neg h13, if_neg h14, if_neg h15, if_neg h16]

/-- Reserved-word lexemes never resolve to `Identifier`. -/
lemma keywordLookup_mem (value : List Char) (h : value ∈ kwSpellings) :
    ∀ name, keywordLookup value ≠ .identifier name := by
  intro name
  simp only [kwSpellings, List.mem_cons, List.not_mem_nil, or_false] at h
  rcases h with rfl | rfl | rfl | rfl | rfl | rfl | rfl | rfl | rfl | rfl | rfl | rfl |
    rfl | rfl | rfl | rfl <;> simp [keywordLookup]

/-- C6.  Keyword resolution is exact and case-sensitive: scanning any
identifier-shaped source (alphabetic-or-underscore start, then ASCII
alphanumeric-or-underscore characters) yields exactly one token whose
kind is the reserved-word table lookup of the lexeme; the lookup returns
the keyword kind exactly for the sixteen reserved spellings and
`Identifier` with the lexeme text otherwise; `class` scans to `Class` and
`classify` to `Identifier("classify")`. -/
theorem c6_keyword_resolution :
    (∀ (c : Char) (rest : List Char), is_alpha c = true →
      rest.all is_alpha_numeric = true →
      scanSource (c :: rest) = .ok [⟨keywordLookup (c :: rest), 1⟩]) ∧
    (∀ value : List Char, value ∉ kwSpellings →
      keywordLookup value = .identifier value) ∧
    (∀ value ∈ kwSpellings, ∀ name, keywordLookup value ≠ .identifier name) ∧
    scanSource "class".toList = .ok [⟨.kClass, 1⟩] ∧
    scanSource "classify".toList = .ok [⟨.identifier "classify".toList, 1⟩] := by
  refine ⟨?_, keywordLookup_not_mem, keywordLookup_mem, by decide, by decide⟩
  intro c rest ha hall
  have hasc : ∀ x ∈ c :: rest, utf8Len x = 1 := by
    intro x hx
    rcases List.mem_cons.1 hx with rfl | hx
    · exact utf8Len_one (is_alpha_numeric_lt_128 (is_alpha_alnum ha))
    · exact utf8Len_one (is_alpha_numeric_lt_128 (by
        have := List.all_eq_true.1 hall x hx
        exact this))
  have h1 : scanSource (c :: rest) =
      (match scanOne ⟨c :: rest, [], rest, 0, 1, 1⟩ c with
       | .error e => .error e
       | .ok s2 => scanLoop rest.length s2) := rfl
  rw [h1, scanOne_alpha _ _ ha]
  have h2 : scan_identifier ⟨c :: rest, [], rest, 0, 1, 1⟩ =
      .ok ⟨c :: rest, [⟨keywordLookup (c :: rest), 1⟩], [], 0, 1 + rest.length, 1⟩ := by
    simp only [scan_identifier]
    rw [scanIdentLoop_all rest 1 hall]
    simp only []
    rw [byteSlice_ascii _ _ _ hasc,
      if_pos (⟨Nat.zero_le _, by rw [List.length_cons]; omega⟩ :
        0 ≤ 1 + rest.length ∧ 1 + rest.length ≤ (c :: rest).length),
      List.drop_zero, Nat.sub_zero,
      List.take_of_length_le (by rw [List.length_cons]; omega)]
    simp [addToken]
  rw [h2]
  exact scanLoop_nil _ _ rfl

/-- C6 witness: the general half applied to the reserved lexeme `var`. -/
theorem c6_keyword_resolution_witness :
    scanSource ['v', 'a', 'r'] = .ok [⟨.kVar, 1⟩] :=
  (c6_keyword_resolution.1 'v' ['a', 'r'] (by decide) (by decide)).trans (by decide)

/-!  ### Exact characterizations of the consuming loops (C9, C10)  -/

/-- A `takeWhile` prefix is never longer than the list. -/
lemma takeWhile_length_le (p : Char → Bool) (t : List Char) :
    (t.takeWhile p).length ≤ t.length := by
  conv_rhs => rw [← List.takeWhile_append_dropWhile p t]
  rw [List.length_append]
  omega

/-- Dropping a while-prefix is dropping its length. -/
lemma dropWhile_eq_drop_length (p : Char → Bool) :
    ∀ t : List Char, t.dropWhile p = t.drop (t.takeWhile p).length := by
  intro t
  induction t with
  | nil => simp
  | cons c cs ih =>
    by_cases hc : p c = true
    · simp [List.dropWhile_cons, List.takeWhile_cons, hc, ih]
    · have hc' : p c = false := by revert hc; cases p c <;> simp
      simp [List.dropWhile_cons, List.takeWhile_cons, hc']

/-- The digit loop consumes exactly the maximal digit run. -/
lemma scanDigitsLoop_eq : ∀ (t : List Char) (cur : Nat),
    scanDigitsLoop t cur = (t.dropWhile is_digit, cur + (t.takeWhile is_digit).length) := by
  intro t
  induction t with
  | nil =>
    intro cur
    simp [scanDigitsLoop]
  | cons c cs ih =>
    intro cur
    by_cases hd : is_digit c = true
    · simp only [scanDigitsLoop, List.dropWhile_cons, List.takeWhile_cons, hd, if_true]
      rw [ih (cur + 1)]
      simp only [Prod.mk.injEq, List.length_cons]
      exact ⟨trivial, by omega⟩
    · have hd' : is_digit c = false := by revert hd; cases is_digit c <;> simp
      simp [scanDigitsLoop, List.dropWhile_cons, List.takeWhile_cons, hd']

/-- The identifier loop consumes exactly the maximal alphanumeric run. -/
lemma scanIdentLoop_eq : ∀ (t : List Char) (cur : Nat),
    scanIdentLoop t cur =
      (t.dropWhile is_alpha_numeric, cur + (t.takeWhile is_alpha_numeric).length) := by
  intro t
  induction t with
  | nil =>
    intro cur
    simp [scanIdentLoop]
  | cons c cs ih =>
    intro cur
    by_cases hd : is_alpha_numeric c = true
    · simp only [scanIdentLoop, List.dropWhile_cons, List.takeWhile_cons, hd, if_true]
      rw [ih (cur + 1)]
      simp only [Prod.mk.injEq, List.length_cons]
      exact ⟨trivial, by omega⟩
    · have hd' : is_alpha_numeric c = false := by revert hd; cases is_alpha_numeric c <;> simp
      simp [scanIdentLoop, List.dropWhile_cons, List.takeWhile_cons, hd']

/-- The line-comment loop consumes exactly the characters before the next
newline (or the whole stream). -/
lemma lineCommentLoop_eq : ∀ (t : List Char) (cur : Nat),
    lineCommentLoop t cur =
      (t.dropWhile (fun x => !decide (x = '\n')),
       cur + (t.takeWhile (fun x => !decide (x = '\n'))).length) := by
  intro t
  induction t with
  | nil =>
    intro cur
    simp [lineCommentLoop]
  | cons c cs ih =>
    intro cur
    by_cases hn : c = '\n'
    · subst hn
      simp [lineCommentLoop, List.dropWhile_cons, List.takeWhile_cons]
    · have hpc : (!decide (c = '\n')) = true := by simp [hn]
      rw [show lineCommentLoop (c :: cs) cur = lineCommentLoop cs (cur + 1) by
        simp [lineCommentLoop, hn], ih (cur + 1)]
      simp [List.dropWhile_cons, List.takeWhile_cons, hpc, Prod.mk.injEq]
      omega

/-- The string-body loop consumes exactly the characters before the next
quote (or the whole stream), counting the newlines it passes. -/
lemma scanStringLoop_eq : ∀ (t : List Char) (cur line : Nat),
    scanStringLoop t cur line =
      (t.dropWhile (fun x => !decide (x = '"')),
       cur + (t.takeWhile (fun x => !decide (x = '"'))).length,
       line + (t.takeWhile (fun x => !decide (x = '"'))).countP (fun x => decide (x = '\n'))) := by
  intro t
  induction t with
  | nil =>
    intro cur line
    simp [scanStringLoop]
  | cons c cs ih =>
    intro cur line
    by_cases hq : c = '"'
    · subst hq
      simp [scanStringLoop, List.dropWhile_cons, List.takeWhile_cons]
    · have hpc : (!decide (c = '"')) = true := by simp [hq]
      by_cases hn : c = '\n'
      · subst hn
        rw [show scanStringLoop ('\n' :: cs) cur line = scanStringLoop cs (cur + 1) (line + 1) by
          simp [scanStringLoop], ih (cur + 1) (line + 1)]
        simp [List.dropWhile_cons, List.takeWhile_cons, List.countP_cons, hpc, Prod.mk.injEq]
        omega
      · rw [show scanStringLoop (c :: cs) cur line = scanStringLoop cs (cur + 1) line by
          simp [scanStringLoop, hq, hn], ih (cur + 1) line]
        simp [List.dropWhile_cons, List.takeWhile_cons, List.countP_cons, hpc, hn,
          Prod.mk.injEq]
        omega

/-- The block-comment loop only consumes: the returned stream is the
input stream with `current' - current` characters dropped, and `current`
advances by at most one past the stream length (the failed `next()` at
end of input). -/
lemma scanMLC_spec : ∀ (t : List Char) (cur d : Nat),
    cur ≤ (scanMLC t cur d).2 ∧ (scanMLC t cur d).2 ≤ cur + t.length + 1 ∧
    (scanMLC t cur d).1 = t.drop ((scanMLC t cur d).2 - cur) := by
  intro t cur d
  induction t, cur, d using scanMLC.induct with
  | case1 cur d =>
    simp [scanMLC]
  | case2 rest cur d ih =>
    have he : scanMLC ('/' :: '*' :: rest) cur d = scanMLC rest (cur + 2) (d + 1) := rfl
    rw [he]
    obtain ⟨ih1, ih2, ih3⟩ := ih
    refine ⟨by omega, by rw [List.length_cons, List.length_cons]; omega, ?_⟩
    rw [ih3, show (scanMLC rest (cur + 2) (d + 1)).2 - cur =
      ((scanMLC rest (cur + 2) (d + 1)).2 - (cur + 2)) + 1 + 1 by omega,
      List.drop_succ_cons, List.drop_succ_cons]
  | case3 rest cur =>
    have he : scanMLC ('*' :: '/' :: rest) cur 0 = (rest, cur + 2) := rfl
    rw [he]
    refine ⟨by omega, by rw [List.length_cons, List.length_cons]; omega, ?_⟩
    rw [show cur + 2 - cur = 2 by omega]
    rfl
  | case4 rest cur d hd ih =>
    have he : scanMLC ('*' :: '/' :: rest) cur d =
        if d = 0 then (rest, cur + 2) else scanMLC rest (cur + 2) (d - 1) := rfl
    rw [he, if_neg hd]
    obtain ⟨ih1, ih2, ih3⟩ := ih
    refine ⟨by omega, by rw [List.length_cons, List.length_cons]; omega, ?_⟩
    rw [ih3, show (scanMLC rest (cur + 2) (d - 1)).2 - cur =
      ((scanMLC rest (cur + 2) (d - 1)).2 - (cur + 2)) + 1 + 1 by omega,
      List.drop_succ_cons, List.drop_succ_cons]
  | case5 head rest cur d h1 h2 ih =>
    have c1 : ¬(head = '/' ∧ rest.head? = some '*') := by
      rintro ⟨hh, hr⟩
      cases rest with
      | nil => simp at hr
      | cons a tl =>
        simp only [List.head?_cons, Option.some.injEq] at hr
        exact h1 tl hh (by rw [hr])
    have c2 : ¬(head = '*' ∧ rest.head? = some '/') := by
      rintro ⟨hh, hr⟩
      cases rest with
      | nil => simp at hr
      | cons a tl =>
        simp only [List.head?_cons, Option.some.injEq] at hr
        exact h2 tl hh (by rw [hr])
    rw [scanMLC_step head rest cur d c1 c2]
    obtain ⟨ih1, ih2, ih3⟩ := ih
    refine ⟨by omega, by rw [List.length_cons]; omega, ?_⟩
    rw [ih3, show (scanMLC rest (cur + 1) d).2 - cur =
      ((scanMLC rest (cur + 1) d).2 - (cur + 1)) + 1 by omega, List.drop_succ_cons]

/-!  ### StepOk: every dispatch helper only consumes from the stream  -/

/-- Targeted introduction rule for `StepOk`. -/
lemma StepOk_mk (s : Scanner) (tk : List Token) (X : List Char) (cur' line' n : Nat)
    (hcur : cur' = s.current + n)
    (hline : s.line ≤ line')
    (hX : X = s.stream.drop n) (hn : n ≤ s.stream.length + 1) :
    StepOk s ⟨s.source, tk, X, s.start, cur', line'⟩ := by
  subst hcur
  unfold StepOk
  dsimp only
  refine ⟨rfl, rfl, hline, by omega, by omega, ?_⟩
  rw [hX]
  congr 1
  omega

/-- Adding a token changes nothing `StepOk` talks about. -/
lemma StepOk_addToken {s s2 : Scanner} (k : TokenKind) (h : StepOk s s2) :
    StepOk s (addToken s2 k) := h

/-- Consuming a maximal while-prefix is a `StepOk` move. -/
lemma StepOk_dropWhile (s : Scanner) (p : Char → Bool) (tk : List Token) :
    StepOk s ⟨s.source, tk, s.stream.dropWhile p, s.start,
      s.current + (s.stream.takeWhile p).length, s.line⟩ := by
  have := takeWhile_length_le p s.stream
  exact StepOk_mk s tk _ _ _ _ rfl (le_refl _) (dropWhile_eq_drop_length p s.stream) (by omega)

/-- `scan_string` only consumes from the stream. -/
lemma scan_string_ok {s s' : Scanner} (h : scan_string s = .ok s') : StepOk s s' := by
  unfold scan_string at h
  rw [scanStringLoop_eq] at h
  dsimp only at h
  split at h
  · exact absurd h (by simp)
  · split at h
    · exact absurd h (by simp)
    · rename_i hne v hslice
      injection h with h2
      subst h2
      simp only [addToken]
      have hlt := takeWhile_length_le (fun x => !decide (x = '"')) s.stream
      refine StepOk_mk s _ _ _ _
        ((s.stream.takeWhile (fun x => !decide (x = '"'))).length + 1)
        (by omega) (Nat.le_add_right _ _) ?_ (by omega)
      rw [dropWhile_eq_drop_length, List.tail_drop]

/-- `scan_identifier` only consumes from the stream. -/
lemma scan_identifier_ok {s s' : Scanner} (h : scan_identifier s = .ok s') : StepOk s s' := by
  unfold scan_identifier at h
  rw [scanIdentLoop_eq] at h
  dsimp only at h
  split at h
  · exact absurd h (by simp)
  · rename_i v hslice
    injection h with h2
    subst h2
    exact StepOk_addToken _ (StepOk_dropWhile s is_alpha_numeric s.tokens)

/-- `StepOk` is reflexive. -/
lemma StepOk_refl (s : Scanner) : StepOk s s :=
  ⟨rfl, rfl, le_refl _, le_refl _, by omega, by simp⟩

/-- `StepOk` composes when the first move did not read past end of
input. -/
lemma StepOk_trans {s1 s2 s3 : Scanner} (h1 : StepOk s1 s2)
    (hb : s2.current ≤ s1.current + s1.stream.length) (h2 : StepOk s2 s3) :
    StepOk s1 s3 := by
  obtain ⟨a1, a2, a3, a4, a5, a6⟩ := h1
  obtain ⟨b1, b2, b3, b4, b5, b6⟩ := h2
  have hl2 : s2.stream.length = s1.stream.length - (s2.current - s1.current) := by
    rw [a6, List.length_drop]
  refine ⟨b1.trans a1, b2.trans a2, a3.trans b3, a4.trans b4, by omega, ?_⟩
  rw [b6, a6, List.drop_drop]
  congr 1
  omega

/-- The dot-lookahead block only consumes from the stream and never
reads past end of input. -/
lemma scanNumberDot_ok (s1 : Scanner) :
    StepOk s1 (scanNumberDot s1) ∧
    (scanNumberDot s1).current ≤ s1.current + s1.stream.length := by
  rcases hs : s1.stream with _ | ⟨c0, rest⟩
  · simp only [scanNumberDot, hs]
    exact ⟨StepOk_refl s1, by omega⟩
  · by_cases hc0 : c0 = '.'
    · subst hc0
      rcases rest with _ | ⟨d, rest2⟩
      · simp only [scanNumberDot, hs]
        exact ⟨StepOk_refl s1, by omega⟩
      · by_cases hd : is_digit d = true
        · have hlt := takeWhile_length_le is_digit (d :: rest2)
          simp only [scanNumberDot, hs, if_pos hd, scanDigitsLoop_eq]
          constructor
          · refine StepOk_mk s1 _ _ _ _
              (1 + ((d :: rest2).takeWhile is_digit).length)
              (by omega) (le_refl _) ?_ (by rw [hs, List.length_cons]; omega)
            rw [dropWhile_eq_drop_length is_digit (d :: rest2), hs,
              show 1 + ((d :: rest2).takeWhile is_digit).length
                = ((d :: rest2).takeWhile is_digit).length + 1 by omega,
              List.drop_succ_cons]
          · dsimp only
            rw [hs, List.length_cons, List.length_cons] at *
            omega
        · have hd' : is_digit d = false := by revert hd; cases is_digit d <;> simp
          simp only [scanNumberDot, hs, hd', Bool.false_eq_true, if_false]
          exact ⟨StepOk_refl s1, by omega⟩
    · unfold scanNumberDot
      rw [hs]
      split
      · rename_i r heq
        injection heq with hceq _
        exact absurd hceq hc0
      · exact ⟨StepOk_refl s1, by omega⟩

/-- `scan_number` only consumes from the stream. -/
lemma scan_number_ok {s s' : Scanner} (h : scan_number s = .ok s') : StepOk s s' := by
  have hlt1 := takeWhile_length_le is_digit s.stream
  unfold scan_number at h
  rw [scanDigitsLoop_eq] at h
  dsimp only at h
  split at h
  · exact absurd h (by simp)
  · split at h
    · exact absurd h (by simp)
    · rename_i v hparse
      injection h with h2
      subst h2
      apply StepOk_addToken
      have hok := scanNumberDot_ok
        ⟨s.source, s.tokens, s.stream.dropWhile is_digit, s.start,
          s.current + (s.stream.takeWhile is_digit).length, s.line⟩
      exact StepOk_trans (StepOk_dropWhile s is_digit s.tokens)
        (by dsimp only; omega) hok.1

/-- The `!` dispatch arm: one character of lookahead for `=`. -/
lemma scanOne_bang (s : Scanner) :
    scanOne s '!' = (match s.stream with
      | '=' :: rest =>
        .ok (addToken { s with current := s.current + 1, stream := rest } .bangEqual)
      | _ => .ok (addToken s .bang)) := rfl

/-- The `=` dispatch arm: one character of lookahead for `=`. -/
lemma scanOne_equal (s : Scanner) :
    scanOne s '=' = (match s.stream with
      | '=' :: rest =>
        .ok (addToken { s with current := s.current + 1, stream := rest } .equalEqual)
      | _ => .ok (addToken s .equal)) := rfl

/-- The `<` dispatch arm: one character of lookahead for `=`. -/
lemma scanOne_less (s : Scanner) :
    scanOne s '<' = (match s.stream with
      | '=' :: rest =>
        .ok (addToken { s with current := s.current + 1, stream := rest } .lessEqual)
      | _ => .ok (addToken s .less)) := rfl

/-- The `>` dispatch arm: one character of lookahead for `=`. -/
lemma scanOne_greater (s : Scanner) :
    scanOne s '>' = (match s.stream with
      | '=' :: rest =>
        .ok (addToken { s with current := s.current + 1, stream := rest } .greaterEqual)
      | _ => .ok (addToken s .greater)) := rfl

/-- The `/` dispatch arm: line comment, block comment, or a `Slash`. -/
lemma scanOne_slash (s : Scanner) :
    scanOne s '/' = (match s.stream with
      | '/' :: rest =>
        .ok { s with stream := (lineCommentLoop rest (s.current + 1)).1, current := (lineCommentLoop rest (s.current + 1)).2 }
      | '*' :: rest =>
        .ok (scan_multiline_comment { s with current := s.current + 1, stream := rest })
      | _ => .ok (addToken s .slash)) := rfl

/-- The dispatch sends every decimal digit to `scan_number`. -/
lemma scanOne_digit (s : Scanner) (c : Char) (h : is_digit c = true) :
    scanOne s c = scan_number s := by
  have n01 : c ≠ '(' := ne_of_true_of_false h '(' (by decide)
  have n02 : c ≠ ')' := ne_of_true_of_false h ')' (by decide)
  have n03 : c ≠ '\x7b' := ne_of_true_of_false h '\x7b' (by decide)
  have n04 : c ≠ '\x7d' := ne_of_true_of_false h '\x7d' (by decide)
  have n05 : c ≠ ',' := ne_of_true_of_false h ',' (by decide)
  have n06 : c ≠ '.' := ne_of_true_of_false h '.' (by decide)
  have n07 : c ≠ '-' := ne_of_true_of_false h '-' (by decide)
  have n08 : c ≠ '+' := ne_of_true_of_false h '+' (by decide)
  have n09 : c ≠ ';' := ne_of_true_of_false h ';' (by decide)
  have n10 : c ≠ '*' := ne_of_true_of_false h '*' (by decide)
  have n11 : c ≠ '!' := ne_of_true_of_false h '!' (by decide)
  have n12 : c ≠ '=' := ne_of_true_of_false h '=' (by decide)
  have n13 : c ≠ '<' := ne_of_true_of_false h '<' (by decide)
  have n14 : c ≠ '>' := ne_of_true_of_false h '>' (by decide)
  have n15 : c ≠ '/' := ne_of_true_of_false h '/' (by decide)
  have n16 : c ≠ '"' := ne_of_true_of_false h '"' (by decide)
  simp only [scanOne, if_neg n01, if_neg n02, if_neg n03, if_neg n04, if_neg n05,
    if_neg n06, if_neg n07, if_neg n08, if_neg n09, if_neg n10, if_neg n11,
    if_neg n12, if_neg n13, if_neg n14, if_neg n15, if_neg n16, if_pos h]

set_option maxHeartbeats 1600000 in
/-- Every successful dispatch is a `StepOk` move. -/
lemma scanOne_stepOk {s s' : Scanner} {c : Char} (h : scanOne s c = .ok s') :
    StepOk s s' := by
  by_cases h01 : c = '('
  · subst h01
    rw [show scanOne s '(' = .ok (addToken s .leftParen) from rfl] at h
    injection h with h2
    subst h2
    exact StepOk_addToken _ (StepOk_refl s)
  by_cases h02 : c = ')'
  · subst h02
    rw [show scanOne s ')' = .ok (addToken s .rightParen) from rfl] at h
    injection h with h2
    subst h2
    exact StepOk_addToken _ (StepOk_refl s)
  by_cases h03 : c = '\x7b'
  · subst h03
    rw [show scanOne s '\x7b' = .ok (addToken s .leftBrace) from rfl] at h
    injection h with h2
    subst h2
    exact StepOk_addToken _ (StepOk_refl s)
  by_cases h04 : c = '\x7d'
  · subst h04
    rw [show scanOne s '\x7d' = .ok (addToken s .rightBrace) from rfl] at h
    injection h with h2
    subst h2
    exact StepOk_addToken _ (StepOk_refl s)
  by_cases h05 : c = ','
  · subst h05
    rw [show scanOne s ',' = .ok (addToken s .comma) from rfl] at h
    injection h with h2
    subst h2
    exact StepOk_addToken _ (StepOk_refl s)
  by_cases h06 : c = '.'
  · subst h06
    rw [show scanOne s '.' = .ok (addToken s .dot) from rfl] at h
    injection h with h2
    subst h2
    exact StepOk_addToken _ (StepOk_refl s)
  by_cases h07 : c = '-'
  · subst h07
    rw [show scanOne s '-' = .ok (addToken s .minus) from rfl] at h
    injection h with h2
    subst h2
    exact StepOk_addToken _ (StepOk_refl s)
  by_cases h08 : c = '+'
  · subst h08
    rw [show scanOne s '+' = .ok (addToken s .plus) from rfl] at h
    injection h with h2
    subst h2
    exact StepOk_addToken _ (StepOk_refl s)
  by_cases h09 : c = ';'
  · subst h09
    rw [show scanOne s ';' = .ok (addToken s .semicolon) from rfl] at h
    injection h with h2
    subst h2
    exact StepOk_addToken _ (StepOk_refl s)
  by_cases h10 : c = '*'
  · subst h10
    rw [show scanOne s '*' = .ok (addToken s .star) from rfl] at h
    injection h with h2
    subst h2
    exact StepOk_addToken _ (StepOk_refl s)
  by_cases h11 : c = '!'
  · subst h11
    rw [scanOne_bang] at h
    split at h
    · rename_i rest heq
      injection h with h2
      subst h2
      apply StepOk_addToken
      exact StepOk_mk s _ _ _ _ 1 rfl (le_refl _) (by rw [heq]; rfl) (by omega)
    · injection h with h2
      subst h2
      exact StepOk_addToken _ (StepOk_refl s)
  by_cases h12 : c = '='
  · subst h12
    rw [scanOne_equal] at h
    split at h
    · rename_i rest heq
      injection h with h2
      subst h2
      apply StepOk_addToken
      exact StepOk_mk s _ _ _ _ 1 rfl (le_refl _) (by rw [heq]; rfl) (by omega)
    · injection h with h2
      subst h2
      exact StepOk_addToken _ (StepOk_refl s)
  by_cases h13 : c = '<'
  · subst h13
    rw [scanOne_less] at h
    split at h
    · rename_i rest heq
      injection h with h2
      subst h2
      apply StepOk_addToken
      exact StepOk_mk s _ _ _ _ 1 rfl (le_refl _) (by rw [heq]; rfl) (by omega)
    · injection h with h2
      subst h2
      exact StepOk_addToken _ (StepOk_refl s)
  by_cases h14 : c = '>'
  · subst h14
    rw [scanOne_greater] at h
    split at h
    · rename_i rest heq
      injection h with h2
      subst h2
      apply StepOk_addToken
      exact StepOk_mk s _ _ _ _ 1 rfl (le_refl _) (by rw [heq]; rfl) (by omega)
    · injection h with h2
      subst h2
      exact StepOk_addToken _ (StepOk_refl s)
  by_cases h15 : c = '/'
  · subst h15
    rw [scanOne_slash] at h
    split at h
    · rename_i rest heq
      injection h with h2
      subst h2
      rw [lineCommentLoop_eq]
      dsimp only
      have hlt := takeWhile_length_le (fun x => !decide (x = '\n')) rest
      refine StepOk_mk s _ _ _ _
        (1 + (rest.takeWhile (fun x => !decide (x = '\n'))).length)
        (by omega) (le_refl _) ?_ (by rw [heq, List.length_cons]; omega)
      rw [dropWhile_eq_drop_length, heq,
        show 1 + (rest.takeWhile (fun x => !decide (x = '\n'))).length
          = (rest.takeWhile (fun x => !decide (x = '\n'))).length + 1 by omega,
        List.drop_succ_cons]
    · rename_i rest heq
      injection h with h2
      subst h2
      unfold scan_multiline_comment
      dsimp only
      obtain ⟨m1, m2, m3⟩ := scanMLC_spec rest (s.current + 1) 0
      refine StepOk_mk s _ _ _ _ ((scanMLC rest (s.current + 1) 0).2 - s.current)
        (by omega) (le_refl _) ?_ (by rw [heq, List.length_cons]; omega)
      rw [m3, heq,
        show (scanMLC rest (s.current + 1) 0).2 - s.current
          = ((scanMLC rest (s.current + 1) 0).2 - (s.current + 1)) + 1 by omega,
        List.drop_succ_cons]
    · injection h with h2
      subst h2
      exact StepOk_addToken _ (StepOk_refl s)
  by_cases h16 : c = '"'
  · subst h16
    have hred : scanOne s '"' = scan_string s := rfl
    rw [hred] at h
    exact scan_string_ok h
  by_cases h17 : is_digit c = true
  · rw [scanOne_digit s c h17] at h
    exact scan_number_ok h
  by_cases h18 : is_alpha c = true
  · rw [scanOne_alpha s c h18] at h
    exact scan_identifier_ok h
  by_cases h19 : c = ' ' ∨ c = '\r' ∨ c = '\t'
  · rcases h19 with hws | hws | hws
    all_goals subst hws
    all_goals first
      | (rw [show scanOne s ' ' = .ok s from rfl] at h
         injection h with h2
         subst h2
         exact StepOk_refl s)
      | (rw [show scanOne s '\r' = .ok s from rfl] at h
         injection h with h2
         subst h2
         exact StepOk_refl s)
      | (rw [show scanOne s '\t' = .ok s from rfl] at h
         injection h with h2
         subst h2
         exact StepOk_refl s)
  by_cases h20 : c = '\n'
  · subst h20
    rw [show scanOne s '\n' = .ok { s with line := s.line + 1 } from rfl] at h
    injection h with h2
    subst h2
    exact StepOk_mk s _ _ _ _ 0 rfl (by omega) (by simp) (by omega)
  simp only [scanOne, if_neg h01, if_neg h02, if_neg h03, if_neg h04, if_neg h05,
    if_neg h06, if_neg h07, if_neg h08, if_neg h09, if_neg h10, if_neg h11,
    if_neg h12, if_neg h13, if_neg h14, if_neg h15, if_neg h16, if_neg h17,
    if_neg h18, if_neg h19, if_neg h20] at h
  exact absurd h (by simp)

/-- One iteration of the scan preserves the reachability invariant. -/
lemma scanStep_inv {src : List Char} {s s' : Scanner} (hstep : ScanStep s s')
    (hinv : ReachInv src s) : ReachInv src s' := by
  obtain ⟨hsrc, hsc, hcl, hstream⟩ := hinv
  rcases hstep with ⟨c, rest, hs, hone⟩
  have hok := scanOne_stepOk hone
  obtain ⟨o1, o2, o3, o4, o5, o6⟩ := hok
  dsimp only at o1 o2 o3 o4 o5 o6
  have h2 : s.current < src.length := by
    by_contra hcon
    push_neg at hcon
    have hnil : src.drop s.current = [] := List.drop_eq_nil_of_le hcon
    rw [← hstream, hs] at hnil
    exact List.noConfusion hnil
  have h1 : (c :: rest).length = src.length - s.current := by
    rw [← hs, hstream, List.length_drop]
  rw [List.length_cons] at h1
  have hrest : src.drop (s.current + 1) = rest := by
    rw [← List.tail_drop, ← hstream, hs]
    rfl
  refine ⟨o1.trans hsrc, ?_, ?_, ?_⟩
  · rw [o2]
    omega
  · omega
  · rw [o6, ← hrest, List.drop_drop]
    congr 1
    omega

/-- C9 (amended).  At every iteration boundary of the scan, the cursor
offsets satisfy `start ≤ current` and `current ≤ length source + 1` —
but *not* `current ≤ length source` as claimed: the final failed
`next()` of a block-comment loop at end of input pushes `current` one
past the end (see the counterexample).  The line counter never
decreases across an iteration. -/
theorem c9_cursor_invariant_amended :
    (∀ (src : List Char) (s : Scanner),
      Relation.ReflTransGen ScanStep (initScanner src) s →
      s.start ≤ s.current ∧ s.current ≤ src.length + 1) ∧
    (∀ s s' : Scanner, ScanStep s s' → s.line ≤ s'.line) := by
  constructor
  · intro src s hreach
    have hinv : ReachInv src s := by
      induction hreach with
      | refl => exact ⟨rfl, le_refl _, by simp [initScanner], by simp [initScanner]⟩
      | tail hr hstep ih => exact scanStep_inv hstep ih
    exact ⟨hinv.2.1, hinv.2.2.1⟩
  · intro s s' hstep
    rcases hstep with ⟨c, rest, hs, hone⟩
    have h3 := (scanOne_stepOk hone).2.2.1
    exact h3

/-- C9 counterexample: the claim `current ≤ length source` at every
point of the scan is false.  On the source `/*` the very first iteration
(which scans an unterminated block comment) ends with `current = 3`
while the source has length 2: the failed `next()` at end of input still
increments `current`. -/
theorem c9_cursor_invariant_counterexample :
    ScanStep (initScanner ['/', '*']) ⟨['/', '*'], [], [], 0, 3, 1⟩ ∧
    ¬(3 ≤ (['/', '*'] : List Char).length) :=
  ⟨ScanStep.mk _ _ '/' ['*'] rfl (by decide), by decide⟩

/-- C9 witness: the amended invariant at a concrete reachable state. -/
theorem c9_cursor_invariant_witness :
    (initScanner ['a']).start ≤ (initScanner ['a']).current ∧
    (initScanner ['a']).current ≤ (['a'] : List Char).length + 1 :=
  c9_cursor_invariant_amended.1 ['a'] (initScanner ['a']) Relation.ReflTransGen.refl

/-!  ### ASCII sources never reach the number-parse failure (C10)  -/

/-- With no fuel the loop returns the accumulated tokens. -/
lemma scanLoop_zero (s : Scanner) : scanLoop 0 s = .ok s.tokens := by
  rw [scanLoop.eq_def]
  rcases s.stream <;> rfl

/-- A list all of whose elements satisfy `p` is its own while-prefix. -/
lemma takeWhile_all (p : Char → Bool) :
    ∀ l : List Char, l.all p = true → l.takeWhile p = l ∧ l.dropWhile p = [] := by
  intro l
  induction l with
  | nil => intro _; simp
  | cons c cs ih =>
    intro hall
    rw [List.all_cons, Bool.and_eq_true] at hall
    rw [List.takeWhile_cons, List.dropWhile_cons, if_pos hall.1, if_pos hall.1]
    exact ⟨by rw [(ih hall.2).1], (ih hall.2).2⟩

/-- Every element of a while-prefix satisfies the predicate. -/
lemma all_takeWhile (p : Char → Bool) : ∀ l : List Char, (l.takeWhile p).all p = true := by
  intro l
  induction l with
  | nil => simp
  | cons c cs ih =>
    rw [List.takeWhile_cons]
    by_cases hc : p c = true
    · rw [if_pos hc, List.all_cons, Bool.and_eq_true]
      exact ⟨hc, ih⟩
    · rw [if_neg hc]
      simp

/-- Splitting `takeWhile`/`dropWhile` around a failing element. -/
lemma takeWhile_append_not (p : Char → Bool) :
    ∀ xs : List Char, xs.all p = true → ∀ (y : Char) (ys : List Char), p y = false →
      (xs ++ y :: ys).takeWhile p = xs ∧ (xs ++ y :: ys).dropWhile p = y :: ys := by
  intro xs
  induction xs with
  | nil =>
    intro _ y ys hy
    rw [List.nil_append, List.takeWhile_cons, List.dropWhile_cons, hy]
    simp
  | cons c cs ih =>
    intro hall y ys hy
    rw [List.all_cons, Bool.and_eq_true] at hall
    rw [List.cons_append, List.takeWhile_cons, List.dropWhile_cons,
      if_pos hall.1, if_pos hall.1]
    exact ⟨by rw [(ih hall.2 y ys hy).1], (ih hall.2 y ys hy).2⟩

/-- Taking while-prefix-many characters is the while-prefix. -/
lemma take_takeWhile (p : Char → Bool) (l : List Char) :
    l.take (l.takeWhile p).length = l.takeWhile p := by
  induction l with
  | nil => simp
  | cons c cs ih =>
    rw [List.takeWhile_cons]
    by_cases hc : p c = true
    · rw [if_pos hc, List.length_cons, List.take_succ_cons, ih]
    · rw [if_neg hc]
      simp

/-- A nonempty all-digit lexeme parses. -/
lemma rustParseF64_digits (xs : List Char) (hne : xs ≠ [])
    (hall : xs.all is_digit = true) : ∃ q, rustParseF64 xs = some q := by
  obtain ⟨h1, h2⟩ := takeWhile_all is_digit xs hall
  unfold rustParseF64
  rw [h1, h2]
  cases xs with
  | nil => exact absurd rfl hne
  | cons c cs => exact ⟨_, rfl⟩

/-- A nonempty all-digit run, a dot, and an all-digit run parse. -/
lemma rustParseF64_digits_frac (xs ys : List Char) (hne : xs ≠ [])
    (hx : xs.all is_digit = true) (hy : ys.all is_digit = true) :
    ∃ q, rustParseF64 (xs ++ '.' :: ys) = some q := by
  obtain ⟨h1, h2⟩ := takeWhile_append_not is_digit xs hx '.' ys (by decide)
  refine ⟨(digitsToNat xs : ℚ) + (digitsToNat ys : ℚ) / (10 : ℚ) ^ ys.length, ?_⟩
  unfold rustParseF64
  rw [h1, h2]
  show (if ys.all is_digit = true ∧ (xs ≠ [] ∨ ys ≠ []) then
      some ((digitsToNat xs : ℚ) + (digitsToNat ys : ℚ) / (10 : ℚ) ^ ys.length)
    else none) = _
  rw [if_pos ⟨hy, Or.inl hne⟩]

/-- The dot-lookahead block either leaves the state alone or, when the
stream is a dot followed by a digit, consumes the dot and the maximal
fractional digit run. -/
lemma scanNumberDot_cases (s1 : Scanner) :
    scanNumberDot s1 = s1 ∨
    (∃ d r2, s1.stream = '.' :: d :: r2 ∧ is_digit d = true ∧
      scanNumberDot s1 = { s1 with stream := (d :: r2).dropWhile is_digit, current := s1.current + 1 + ((d :: r2).takeWhile is_digit).length }) := by
  rcases hs : s1.stream with _ | ⟨c0, rest⟩
  · left
    simp [scanNumberDot, hs]
  · by_cases hc0 : c0 = '.'
    · subst hc0
      rcases rest with _ | ⟨d, rest2⟩
      · left
        simp [scanNumberDot, hs]
      · by_cases hd : is_digit d = true
        · right
          refine ⟨d, rest2, rfl, hd, ?_⟩
          simp only [scanNumberDot, hs, if_pos hd, scanDigitsLoop_eq]
        · left
          have hd' : is_digit d = false := by revert hd; cases is_digit d <;> simp
          simp [scanNumberDot, hs, hd', Bool.false_eq_true, if_false]
    · left
      unfold scanNumberDot
      rw [hs]
      split
      · rename_i r heq
        injection heq with hceq _
        exact absurd hceq hc0
      · rfl

/-- The only errors `scan_string` raises. -/
lemma scan_string_error {s : Scanner} {e : ScanError} (h : scan_string s = .error e) :
    (∃ n, e = .unterminatedString n) ∨ e = .stringSlicePanic := by
  unfold scan_string at h
  dsimp only at h
  split at h
  · injection h with h2
    exact Or.inl ⟨_, h2.symm⟩
  · split at h
    · injection h with h2
      exact Or.inr h2.symm
    · exact absurd h (by simp)

/-- The only error `scan_identifier` raises. -/
lemma scan_identifier_error {s : Scanner} {e : ScanError}
    (h : scan_identifier s = .error e) : e = .identifierSlicePanic := by
  unfold scan_identifier at h
  dsimp only at h
  split at h
  · injection h with h2
    exact h2.symm
  · exact absurd h (by simp)

/-- Taking past an appended singleton splits cleanly. -/
lemma take_append_succ (xs : List Char) (y : Char) (ys : List Char) (k : Nat) :
    (xs ++ y :: ys).take (xs.length + (1 + k)) = xs ++ y :: ys.take k := by
  rw [List.take_append_eq_append_take, List.take_of_length_le (by omega),
    Nat.add_sub_cancel_left, show (1 : Nat) + k = k + 1 by omega, List.take_succ_cons]

/-- Under the conditions that hold at the digit dispatch of an all-ASCII
scan, `scan_number` always succeeds: the slice is in bounds on character
boundaries and the lexeme is `digits [ "." digits ]`, which parses. -/
lemma scan_number_ascii_ok (s : Scanner) (c : Char)
    (hascii : ∀ x ∈ s.source, x.toNat < 128)
    (hdis : s.source.drop s.start = c :: s.stream)
    (hcur : s.current = s.start + 1)
    (hlen : s.current + s.stream.length = s.source.length)
    (hd : is_digit c = true) :
    ∃ s2, scan_number s = .ok s2 := by
  have hlt1 := takeWhile_length_le is_digit s.stream
  have hall1 := all_takeWhile is_digit s.stream
  have hclen : ∀ x ∈ s.source, utf8Len x = 1 := fun x hx => utf8Len_one (hascii x hx)
  unfold scan_number
  rw [scanDigitsLoop_eq]
  dsimp only
  rcases scanNumberDot_cases ⟨s.source, s.tokens, s.stream.dropWhile is_digit, s.start,
      s.current + (s.stream.takeWhile is_digit).length, s.line⟩ with hA | ⟨d, r2, hst, hdd, hB⟩
  · rw [hA]
    dsimp only
    rw [byteSlice_ascii _ _ _ hclen, if_pos (⟨by omega, by omega⟩ :
        s.start ≤ s.current + (s.stream.takeWhile is_digit).length ∧
        s.current + (s.stream.takeWhile is_digit).length ≤ s.source.length),
      hdis,
      show s.current + (s.stream.takeWhile is_digit).length - s.start
        = (s.stream.takeWhile is_digit).length + 1 by omega,
      List.take_succ_cons, take_takeWhile]
    obtain ⟨q, hq⟩ := rustParseF64_digits (c :: s.stream.takeWhile is_digit) (by simp)
      (by rw [List.all_cons, Bool.and_eq_true]; exact ⟨hd, hall1⟩)
    dsimp only
    rw [hq]
    exact ⟨_, rfl⟩
  · dsimp only at hst
    have hlt2 := takeWhile_length_le is_digit (d :: r2)
    have hdwlen : (s.stream.dropWhile is_digit).length = r2.length + 2 := by
      rw [hst, List.length_cons, List.length_cons]
    have hslen : s.stream.length =
        (s.stream.takeWhile is_digit).length + (s.stream.dropWhile is_digit).length := by
      conv_lhs => rw [← List.takeWhile_append_dropWhile is_digit s.stream]
      rw [List.length_append]
    have hsplit2 : s.stream = s.stream.takeWhile is_digit ++ '.' :: d :: r2 := by
      rw [← hst]
      exact (List.takeWhile_append_dropWhile is_digit s.stream).symm
    rw [hB]
    dsimp only
    rw [List.length_cons] at hlt2
    rw [byteSlice_ascii _ _ _ hclen, if_pos (⟨by omega, by omega⟩ :
        s.start ≤ s.current + (s.stream.takeWhile is_digit).length + 1 +
          ((d :: r2).takeWhile is_digit).length ∧
        s.current + (s.stream.takeWhile is_digit).length + 1 +
          ((d :: r2).takeWhile is_digit).length ≤ s.source.length),
      hdis,
      show s.current + (s.stream.takeWhile is_digit).length + 1 +
          ((d :: r2).takeWhile is_digit).length - s.start
        = ((s.stream.takeWhile is_digit).length +
            (1 + ((d :: r2).takeWhile is_digit).length)) + 1 by omega,
      List.take_succ_cons]
    have htake : s.stream.take ((s.stream.takeWhile is_digit).length +
        (1 + ((d :: r2).takeWhile is_digit).length)) =
        s.stream.takeWhile is_digit ++ '.' :: ((d :: r2).takeWhile is_digit) := by
      have h2 := take_append_succ (s.stream.takeWhile is_digit) '.' (d :: r2)
        ((d :: r2).takeWhile is_digit).length
      rw [take_takeWhile] at h2
      rw [← hsplit2] at h2
      exact h2
    rw [htake, ← List.cons_append]
    obtain ⟨q, hq⟩ := rustParseF64_digits_frac (c :: s.stream.takeWhile is_digit)
      ((d :: r2).takeWhile is_digit) (by simp)
      (by rw [List.all_cons, Bool.and_eq_true]; exact ⟨hd, hall1⟩)
      (all_takeWhile is_digit (d :: r2))
    dsimp only
    rw [hq]
    exact ⟨_, rfl⟩

set_option maxHeartbeats 1600000 in
/-- In an all-ASCII scan, a dispatch error is never a number-slice or
number-parse failure: the digit arm always succeeds (`scan_number_ascii_ok`)
and every other arm raises only its own documented error. -/
lemma scanOne_error_not_number (s : Scanner) (c : Char) (e : ScanError)
    (hascii : ∀ x ∈ s.source, x.toNat < 128)
    (hdis : s.source.drop s.start = c :: s.stream)
    (hcur : s.current = s.start + 1)
    (hlen : s.current + s.stream.length = s.source.length)
    (h : scanOne s c = .error e) :
    e ≠ .parsePanic ∧ e ≠ .numberSlicePanic := by
  by_cases h01 : c = '('
  · subst h01
    rw [show scanOne s '(' = .ok (addToken s .leftParen) from rfl] at h
    exact absurd h (by simp)
  by_cases h02 : c = ')'
  · subst h02
    rw [show scanOne s ')' = .ok (addToken s .rightParen) from rfl] at h
    exact absurd h (by simp)
  by_cases h03 : c = '\x7b'
  · subst h03
    rw [show scanOne s '\x7b' = .ok (addToken s .leftBrace) from rfl] at h
    exact absurd h (by simp)
  by_cases h04 : c = '\x7d'
  · subst h04
    rw [show scanOne s '\x7d' = .ok (addToken s .rightBrace) from rfl] at h
    exact absurd h (by simp)
  by_cases h05 : c = ','
  · subst h05
    rw [show scanOne s ',' = .ok (addToken s .comma) from rfl] at h
    exact absurd h (by simp)
  by_cases h06 : c = '.'
  · subst h06
    rw [show scanOne s '.' = .ok (addToken s .dot) from rfl] at h
    exact absurd h (by simp)
  by_cases h07 : c = '-'
  · subst h07
    rw [show scanOne s '-' = .ok (addToken s .minus) from rfl] at h
    exact absurd h (by simp)
  by_cases h08 : c = '+'
  · subst h08
    rw [show scanOne s '+' = .ok (addToken s .plus) from rfl] at h
    exact absurd h (by simp)
  by_cases h09 : c = ';'
  · subst h09
    rw [show scanOne s ';' = .ok (addToken s .semicolon) from rfl] at h
    exact absurd h (by simp)
  by_cases h10 : c = '*'
  · subst h10
    rw [show scanOne s '*' = .ok (addToken s .star) from rfl] at h
    exact absurd h (by simp)
  by_cases h11 : c = '!'
  · subst h11
    rw [scanOne_bang] at h
    split at h <;> exact absurd h (by simp)
  by_cases h12 : c = '='
  · subst h12
    rw [scanOne_equal] at h
    split at h <;> exact absurd h (by simp)
  by_cases h13 : c = '<'
  · subst h13
    rw [scanOne_less] at h
    split at h <;> exact absurd h (by simp)
  by_cases h14 : c = '>'
  · subst h14
    rw [scanOne_greater] at h
    split at h <;> exact absurd h (by simp)
  by_cases h15 : c = '/'
  · subst h15
    rw [scanOne_slash] at h
    split at h <;> exact absurd h (by simp)
  by_cases h16 : c = '"'
  · subst h16
    rw [show scanOne s '"' = scan_string s from rfl] at h
    rcases scan_string_error h with ⟨n, he⟩ | he <;> subst he <;>
      exact ⟨fun hc => ScanError.noConfusion hc, fun hc => ScanError.noConfusion hc⟩
  by_cases h17 : is_digit c = true
  · rw [scanOne_digit s c h17] at h
    obtain ⟨s2, h2⟩ := scan_number_ascii_ok s c hascii hdis hcur hlen h17
    rw [h2] at h
    exact absurd h (by simp)
  by_cases h18 : is_alpha c = true
  · rw [scanOne_alpha s c h18] at h
    have he := scan_identifier_error h
    subst he
    exact ⟨fun hc => ScanError.noConfusion hc, fun hc => ScanError.noConfusion hc⟩
  by_cases h19 : c = ' ' ∨ c = '\r' ∨ c = '\t'
  · rcases h19 with hws | hws | hws
    all_goals subst hws
    all_goals first
      | (rw [show scanOne s ' ' = .ok s from rfl] at h
         exact absurd h (by simp))
      | (rw [show scanOne s '\r' = .ok s from rfl] at h
         exact absurd h (by simp))
      | (rw [show scanOne s '\t' = .ok s from rfl] at h
         exact absurd h (by simp))
  by_cases h20 : c = '\n'
  · subst h20
    rw [show scanOne s '\n' = .ok { s with line := s.line + 1 } from rfl] at h
    exact absurd h (by simp)
  simp only [scanOne, if_neg h01, if_neg h02, if_neg h03, if_neg h04, if_neg h05,
    if_neg h06, if_neg h07, if_neg h08, if_neg h09, if_neg h10, if_neg h11,
    if_neg h12, if_neg h13, if_neg h14, if_neg h15, if_neg h16, if_neg h17,
    if_neg h18, if_neg h19, if_neg h20] at h
  injection h with h2
  subst h2
  exact ⟨fun hc => ScanError.noConfusion hc, fun hc => ScanError.noConfusion hc⟩

/-- Over an all-ASCII source the driving loop never fails with a
number-slice or number-parse error, whatever fuel it is given: every
iteration hands `scanOne` a state whose lexeme start is the character
just read, and `scanOne_error_not_number` rules the two errors out
there. -/
lemma scanLoop_ascii_safe : ∀ (fuel : Nat) (s : Scanner),
    (∀ x ∈ s.source, x.toNat < 128) →
    s.source.drop s.current = s.stream →
    ∀ e, scanLoop fuel s = .error e → e ≠ .parsePanic ∧ e ≠ .numberSlicePanic := by
  intro fuel
  induction fuel with
  | zero =>
    intro s _ _ e he
    rw [scanLoop_zero] at he
    exact absurd he (by simp)
  | succ fuel ih =>
    intro s hascii hJ e he
    rcases hs : s.stream with _ | ⟨c, rest⟩
    · rw [scanLoop_nil _ s hs] at he
      exact absurd he (by simp)
    · rw [scanLoop_cons fuel s c rest hs] at he
      have hlt : s.current < s.source.length := by
        by_contra hcon
        push_neg at hcon
        have hnil : s.source.drop s.current = [] := List.drop_eq_nil_of_le hcon
        rw [hJ, hs] at hnil
        exact List.noConfusion hnil
      have hrlen : (s.source.drop s.current).length = s.source.length - s.current :=
        List.length_drop _ _
      rw [hJ, hs, List.length_cons] at hrlen
      rcases hone : scanOne { s with current := s.current + 1, stream := rest, start := s.current } c with e2 | s2
      · rw [hone] at he
        dsimp only at he
        injection he with he2
        subst he2
        refine scanOne_error_not_number
          { s with current := s.current + 1, stream := rest, start := s.current } c e2
          hascii ?_ rfl ?_ hone
        · show s.source.drop s.current = c :: rest
          rw [hJ, hs]
        · show s.current + 1 + rest.length = s.source.length
          omega
      · rw [hone] at he
        dsimp only at he
        obtain ⟨o1, o2, o3, o4, o5, o6⟩ := scanOne_stepOk hone
        dsimp only at o1 o2 o3 o4 o5 o6
        refine ih s2 ?_ ?_ e he
        · rw [o1]
          exact hascii
        · have hrest : s.source.drop (s.current + 1) = rest := by
            rw [← List.tail_drop, hJ, hs]
            rfl
          rw [o1, o6, ← hrest, List.drop_drop]
          congr 1
          omega

/-- C10.  On a source made only of ASCII characters, the scan can never
fail at the number literal: the byte slice `source[start..current]`
taken in `scan_number` is always in bounds on character boundaries, and
the sliced lexeme always parses as a float, so the
`parse::<f64>().unwrap()` failure branch is unreachable. -/
theorem c10_ascii_number_parse_never_fails (src : List Char)
    (hascii : ∀ c ∈ src, c.toNat < 128) :
    scanSource src ≠ .error .parsePanic ∧
    scanSource src ≠ .error .numberSlicePanic := by
  have hsafe := scanLoop_ascii_safe src.length (initScanner src)
    (by exact hascii) rfl
  exact ⟨fun hcon => (hsafe _ hcon).1 rfl, fun hcon => (hsafe _ hcon).2 rfl⟩

/-- C10 witness: the theorem applied to the ASCII source `12.5x`, which
exercises the fractional-number path. -/
theorem c10_ascii_number_parse_never_fails_witness :
    (∀ c ∈ (['1', '2', '.', '5', 'x'] : List Char), c.toNat < 128) ∧
    (scanSource ['1', '2', '.', '5', 'x'] ≠ .error .parsePanic ∧
     scanSource ['1', '2', '.', '5', 'x'] ≠ .error .numberSlicePanic) :=
  ⟨by decide, c10_ascii_number_parse_never_fails ['1', '2', '.', '5', 'x'] (by decide)⟩

/-- The fuel is irrelevant once it covers the unread stream: each
iteration consumes at least one character, so any two sufficient fuels
give the same scan result.  In particular `scanSource`, which supplies
`length source` fuel to an initial state whose stream is the whole
source, computes the true (fuel-free) result of `scan_tokens`. -/
lemma scanLoop_fuel_irrel : ∀ (n : Nat) (s : Scanner), s.stream.length ≤ n →
    ∀ m, s.stream.length ≤ m → scanLoop n s = scanLoop m s := by
  intro n
  induction n with
  | zero =>
    intro s hn m _
    have hs : s.stream = [] := List.eq_nil_of_length_eq_zero (by omega)
    rw [scanLoop_nil 0 s hs, scanLoop_nil m s hs]
  | succ n ih =>
    intro s hn m hm
    rcases hs : s.stream with _ | ⟨c, rest⟩
    · rw [scanLoop_nil _ s hs, scanLoop_nil m s hs]
    · rw [hs, List.length_cons] at hn hm
      rcases m with _ | m
      · omega
      · rw [scanLoop_cons n s c rest hs, scanLoop_cons m s c rest hs]
        rcases hone : scanOne { s with current := s.current + 1, stream := rest, start := s.current } c with e2 | s2
        · rfl
        · obtain ⟨o1, o2, o3, o4, o5, o6⟩ := scanOne_stepOk hone
          dsimp only at o6
          have hs2 : s2.stream.length ≤ rest.length := by
            rw [o6, List.length_drop]
            omega
          exact ih s2 (by omega) m (by omega)

end Lox
